import Mathlib

/-!
Verification of the ValutaTrade Hub rate ingestion and caching engine.

This file is a shallow embedding, in Lean 4, of the parts of the
`valutatrade_hub` Python code base that concern the rate engine:

* `parser_service/storage.py` — `RatesStorage.load_snapshot`,
  `RatesStorage.write_snapshot`, `RatesStorage.append_history`;
* `parser_service/updater.py` — `_iso_to_datetime` and the
  fetch/merge/history phases of `RatesUpdater.run_update`;
* `core/usecases.py` — `RateUseCases._load_pair_rate`,
  `RateUseCases._is_stale`, `RateUseCases.get_exchange_rate`;
* `infra/database.py` — `Database.get_rate`.

Modelling conventions:

* Python floats are modelled as rationals (`ℚ`); the claims under study
  concern control flow and guards, not rounding.
* ISO-8601 timestamp strings are modelled by the inductive `TsStr`: a
  string is abstracted to whether `datetime.fromisoformat` accepts it
  and, when it does, to the UTC instant (in seconds) it denotes.
  `TsStr.missing` covers an absent field, `None`, the empty string and
  (for dictionary fields filtered through `isinstance(_, str)`)
  non-string values — all of which the code treats alike.
* JSON documents read and written by the storage layer are modelled by
  the inductive `JVal`; Python `None` and JSON `null` coincide, so a
  `dict.get` of a missing key is modelled as `JVal.jnull`.
* Wall-clock reads (`datetime.now`) are passed in as an explicit `now`
  parameter.
* The exception class `ApiRequestError` is referenced throughout the
  code base but `core/exceptions.py` does not define it (only its
  callers name it); its role is modelled by dedicated error
  constructors, following the spec's error taxonomy
  (`AllProvidersFailedError`, `StaleDataError`, …) for naming.
-/

namespace ValutaTrade

/-- Model of an optional ISO-8601 timestamp string.  `missing` stands for
an absent dictionary key, `None`, the empty string, or a non-string value
dropped by an `isinstance(_, str)` check; `bad` stands for a non-empty
string rejected by `datetime.fromisoformat`; `iso t` stands for a string
that parses to the UTC instant `t` (in seconds, timezone normalisation of
`_iso_to_datetime` already applied). -/
inductive TsStr where
  | missing : TsStr
  | bad : TsStr
  | iso : Int → TsStr
deriving DecidableEq, Repr

/-- `_iso_to_datetime` from `parser_service/updater.py`: parse an optional
ISO string, returning the instant it denotes, or `none` for a falsy value
or a `ValueError`. -/
def iso_to_datetime : TsStr → Option Int
  | .missing => none
  | .bad => none
  | .iso t => some t

/-- `RateUseCases._is_stale` from `core/usecases.py`.  `ttl_seconds <= 0`
disables the check; a falsy (`missing`) or unparsable (`bad`) `updated_at`
is stale; otherwise the entry is stale when its age exceeds the TTL. -/
def is_stale (updated_at : TsStr) (ttl_seconds : Int) (now : Int) : Bool :=
  if ttl_seconds ≤ 0 then false
  else
    match updated_at with
    | .missing => true
    | .bad => true
    | .iso t => now - t > ttl_seconds

/-- Model of a Python value found in a `"rate"` field of a cached JSON
entry.  `num q` is an `int`/`float`/`bool` with numeric value `q`;
`str s p` is the string `s`, with `p` the result of `float(s)` (`none`
when `float` raises `ValueError`); `other b` is any other value (list,
dict, …), carrying only its truthiness `b` — `float()` fails on it. -/
inductive PyVal where
  | num : ℚ → PyVal
  | str : String → Option ℚ → PyVal
  | other : Bool → PyVal
deriving DecidableEq, Repr

/-- Python truthiness of a `PyVal`. -/
def pyTruthy : PyVal → Bool
  | .num q => q ≠ 0
  | .str s _ => s ≠ ""
  | .other b => b

/-- `float(raw)` wrapped in `try/except (TypeError, ValueError)`, applied
to the result of a `dict.get` (so `none` models a missing key / `None`). -/
def pyFloat : Option PyVal → Option ℚ
  | some (.num q) => some q
  | some (.str _ p) => p
  | _ => none

/-- Errors a Python arithmetic operation can raise in `Database.get_rate`. -/
inductive PyError where
  | typeError : PyError
  | zeroDivision : PyError
deriving DecidableEq, Repr

/-- Python `1.0 / v`: succeeds exactly on non-zero numbers; raises
`ZeroDivisionError` on numeric zero and `TypeError` on anything else. -/
def pyInvert : PyVal → Except PyError ℚ
  | .num q => if q = 0 then .error .zeroDivision else .ok (1 / q)
  | _ => .error .typeError

/-- A value stored under a pair key in the rates table: either not a JSON
object (skipped by the `isinstance(_, dict)` checks, turned into `{}` by
the updater's merge), or an object abstracted to its `"rate"` field
(`none` = key absent), its `"updated_at"` field and its `"source"` field. -/
inductive CacheVal where
  | notDict : CacheVal
  | entry : Option PyVal → TsStr → Option String → CacheVal
deriving DecidableEq, Repr

/-- The `pairs` table of the rates file, as a key-indexed partial map. -/
abbrev RatesMap := String → Option CacheVal

/-- Python `str.upper()` on the ASCII currency codes this program
handles: uppercase the string character by character.  (Defined by a
structural map so that concrete instances evaluate.) -/
def pyUpper (s : String) : String := ⟨s.data.map Char.toUpper⟩

/-- `Database.get_rate` from `infra/database.py`.  Returns `.ok (some v)`
for a found rate (`v` is returned raw from the direct entry, or inverted
from the reverse entry), `.ok none` when no rate is derivable, and
`.error e` when the inversion `1.0 / base_rate` raises. -/
def db_get_rate (pairs : RatesMap) (from_currency to_currency : String) :
    Except PyError (Option PyVal) :=
  let f := pyUpper from_currency
  let t := pyUpper to_currency
  if f = t then .ok (some (.num 1))
  else
    match pairs (f ++ "_" ++ t) with
    | some (.entry rate _ _) => .ok rate
    | _ =>
      match pairs (t ++ "_" ++ f) with
      | some (.entry base_rate _ _) =>
        match base_rate with
        | some v =>
          if pyTruthy v then (pyInvert v).map (fun q => some (.num q))
          else .ok none
        | none => .ok none
      | _ => .ok none

/-- `RateUseCases._load_pair_rate` from `core/usecases.py`: direct lookup
with `float()` coercion of the rate; on failure, reverse lookup inverting
a rate confirmed non-zero; `none` when neither direction yields a rate. -/
def load_pair_rate (pairs : RatesMap) (from_currency to_currency : String) :
    Option (ℚ × TsStr) :=
  let direct :=
    match pairs (from_currency ++ "_" ++ to_currency) with
    | some (.entry rate updated_at _) =>
      match pyFloat rate with
      | some q => some (q, updated_at)
      | none => none
    | _ => none
  match direct with
  | some r => some r
  | none =>
    match pairs (to_currency ++ "_" ++ from_currency) with
    | some (.entry rate updated_at _) =>
      match pyFloat rate with
      | some q => if q ≠ 0 then some (1 / q, updated_at) else none
      | none => none
    | _ => none

/-! ## The updater: sample merge (`RatesUpdater.run_update`, lines 100–123) -/

/-- `RateSample` from `parser_service/api_clients.py` (the `meta` and
`raw_id` provenance fields are not consulted by the merge and are
omitted). -/
structure Sample where
  from_currency : String
  to_currency : String
  rate : ℚ
  source : String
  timestamp : TsStr
deriving DecidableEq, Repr

/-- The derived `pair` property of `RateSample`. -/
def Sample.pair (s : Sample) : String := s.from_currency ++ "_" ++ s.to_currency

/-- The snapshot entry `run_update` writes for an accepted sample. -/
def sampleEntry (s : Sample) : CacheVal :=
  .entry (some (.num s.rate)) s.timestamp (some s.source)

/-- `value.copy() if isinstance(value, dict) else {}`: the comprehension
normalising the loaded snapshot before the merge (updater line 102–105). -/
def normalizeEntry : CacheVal → CacheVal
  | .notDict => .entry none .missing none
  | e => e

/-- Pointwise normalisation of the loaded snapshot. -/
def normalizeSnapshot (m : RatesMap) : RatesMap := fun k => (m k).map normalizeEntry

/-- `merged_pairs.get(pair_key, {}).get("updated_at")`: the `updated_at`
field of the current entry, `missing` when the pair has no entry (or the
entry is the `{}` left by a non-dict value). -/
def entryUpdatedAt : Option CacheVal → TsStr
  | some (.entry _ u _) => u
  | _ => .missing

/-- Pointwise update of the merged-pairs table. -/
def mupd (m : RatesMap) (key : String) (v : CacheVal) : RatesMap :=
  fun k => if k = key then some v else m k

/-- One iteration of the merge loop of `run_update` (lines 110–123):
compare the sample's timestamp (falling back to `now` when unparsable)
against the current entry's `updated_at`; overwrite when there is no
parsable current timestamp or the sample is the same age or newer.
Returns the new table and whether the pair was written. -/
def mergeStep (now : Int) (m : RatesMap) (s : Sample) : RatesMap × Bool :=
  let current_ts := iso_to_datetime (entryUpdatedAt (m s.pair))
  let sample_ts := (iso_to_datetime s.timestamp).getD now
  match current_ts with
  | none => (mupd m s.pair (sampleEntry s), true)
  | some t =>
    if sample_ts ≥ t then (mupd m s.pair (sampleEntry s), true)
    else (m, false)

/-- The merge loop, also accumulating `updated_pairs` (a written pair key
is appended once, on its first write). -/
def mergeLoop (now : Int) : List Sample → RatesMap → List String → RatesMap × List String
  | [], m, upd => (m, upd)
  | s :: ss, m, upd =>
    let r := mergeStep now m s
    mergeLoop now ss r.1
      (if r.2 then (if s.pair ∈ upd then upd else upd ++ [s.pair]) else upd)

/-- Ghost observer: the pair keys actually written during the merge, one
occurrence per write, in write order. -/
def writtenPairs (now : Int) (m : RatesMap) : List Sample → List String
  | [] => []
  | s :: ss =>
    let r := mergeStep now m s
    (if r.2 then [s.pair] else []) ++ writtenPairs now r.1 ss

/-! ## The updater: fetch phase and cycle outcome (`run_update`, lines 65–98) -/

/-- Outcome of one client's `fetch_rates()` call: a sample list, or an
`ApiRequestError` carrying a detail message. -/
inductive FetchResult where
  | ok : List Sample → FetchResult
  | fail : String → FetchResult
deriving DecidableEq, Repr

/-- The errors `run_update` itself raises, named after the spec's error
taxonomy; in the code both are `ApiRequestError` with distinct messages
(updater lines 73 and 98). -/
inductive UpdateError where
  | noProviders : UpdateError
  | allProvidersFailed : UpdateError
deriving DecidableEq, Repr

/-- The non-snapshot outputs of a completed cycle (the `last_refresh`
string of `UpdateResult` is not modelled; no claim consults it). -/
structure UpdateOutcome where
  pairs : RatesMap
  updated_pairs : List String
  errors : List (String × String)
  source_stats : List (String × Nat)

/-- The fetch loop of `run_update` (lines 84–95): aggregate samples in
client order, record a `(source, message)` error per failing client, and
record each client's sample count (zero for a failure). -/
def fetchPhase : List (String × FetchResult) →
    List Sample × List (String × String) × List (String × Nat)
  | [] => ([], [], [])
  | (name, .ok ss) :: rest =>
    let r := fetchPhase rest
    (ss ++ r.1, r.2.1, (name, ss.length) :: r.2.2)
  | (name, .fail msg) :: rest =>
    let r := fetchPhase rest
    (r.1, (name, msg) :: r.2.1, (name, 0) :: r.2.2)

/-- `RatesUpdater.run_update` over the active clients' fetch outcomes:
abort with `noProviders` when no client is active, with
`allProvidersFailed` when zero samples were aggregated and at least one
error was recorded; otherwise merge into the loaded snapshot. -/
def run_update (now : Int) (snapshot : RatesMap)
    (active : List (String × FetchResult)) : Except UpdateError UpdateOutcome :=
  if active.isEmpty then .error .noProviders
  else
    let fetched := fetchPhase active
    if fetched.1.isEmpty && !fetched.2.1.isEmpty then .error .allProvidersFailed
    else
      let merged := mergeLoop now fetched.1 (normalizeSnapshot snapshot) []
      .ok ⟨merged.1, merged.2, fetched.2.1, fetched.2.2⟩

/-! ## The JSON storage layer (`parser_service/storage.py`) -/

/-- JSON documents, as produced by `json.load`.  Python `None` and JSON
`null` coincide, so `dict.get` of a missing key is modelled as `jnull`. -/
inductive JVal where
  | jnull : JVal
  | jbool : Bool → JVal
  | jnum : ℚ → JVal
  | jstr : String → JVal
  | jarr : List JVal → JVal
  | jobj : List (String × JVal) → JVal

/-- First-match lookup in a JSON object's field list (Python dict keys are
unique, so first-match agrees with dict indexing). -/
def jlookup : List (String × JVal) → String → Option JVal
  | [], _ => none
  | (k, v) :: rest, key => if k = key then some v else jlookup rest key

/-- `fields.get(key)`: `None` (= `jnull`) when the key is absent. -/
def jget (fields : List (String × JVal)) (key : String) : JVal :=
  (jlookup fields key).getD .jnull

/-- `key in fields`. -/
def hasKey (fields : List (String × JVal)) (key : String) : Bool :=
  (jlookup fields key).isSome

/-- `isinstance(value, dict) and "rate" in value` (storage line 49). -/
def isRateEntry : JVal → Bool
  | .jobj fs => hasKey fs "rate"
  | _ => false

/-- The states the snapshot file can be in when read.  `missing` is an
absent file, `unreadable` an `OSError` on open, `badJson` a
`json.JSONDecodeError`, `content v` a successfully parsed document. -/
inductive FileState where
  | missing : FileState
  | unreadable : FileState
  | badJson : FileState
  | content : JVal → FileState

/-- `RatesStorage.load_snapshot` (storage lines 29–55), returning the
`(pairs, last_refresh)` it builds: empty table for a missing, unreadable,
corrupt or non-object file; the `pairs` sub-object when present; else the
flat-format normalisation keeping top-level object entries that carry a
`"rate"` field, skipping the `last_refresh` key. -/
def load_snapshot (file : FileState) : List (String × JVal) × JVal :=
  match file with
  | .missing => ([], .jnull)
  | .unreadable => ([], .jnull)
  | .badJson => ([], .jnull)
  | .content v =>
    match v with
    | .jobj fields =>
      match jget fields "pairs" with
      | .jobj raw => (raw, jget fields "last_refresh")
      | _ =>
        (fields.filter (fun kv => kv.1 != "last_refresh" && isRateEntry kv.2),
         jget fields "last_refresh")
    | _ => ([], .jnull)

/-- Python `payload[key] = v` on a dict copy: replace in place when the
key exists, else append. -/
def dictSet (fields : List (String × JVal)) (key : String) (v : JVal) :
    List (String × JVal) :=
  if hasKey fields key then
    fields.map (fun kv => if kv.1 = key then (key, v) else kv)
  else fields ++ [(key, v)]

/-- `RatesStorage.write_snapshot` (storage lines 57–62): the JSON document
it serialises — a copy of `pairs` with `last_refresh` set as a top-level
key (the pair entries themselves stay at the top level). -/
def write_snapshot (pairs : List (String × JVal)) (last_refresh : JVal) : JVal :=
  .jobj (dictSet pairs "last_refresh" last_refresh)

/-- Modelled from the spec: one snapshot pair entry of §6's persisted
format, `{"rate": number, "updated_at": ISO-8601 string, "source":
string}`. -/
def spec_snapshot_entry (v : JVal) : Bool :=
  match v with
  | .jobj fs =>
    (match jget fs "rate" with | .jnum _ => true | _ => false) &&
    (match jget fs "updated_at" with | .jstr _ => true | _ => false) &&
    (match jget fs "source" with | .jstr _ => true | _ => false)
  | _ => false

/-- Modelled from the spec: §6's stable snapshot format — all pair entries
sit under a top-level `"pairs"` key and `"last_refresh"` is the only
other top-level key. -/
def spec_snapshot_format (v : JVal) : Bool :=
  match v with
  | .jobj fields =>
    hasKey fields "pairs" &&
    fields.all (fun kv => kv.1 = "pairs" || kv.1 = "last_refresh") &&
    (match jget fields "pairs" with
     | .jobj raw => raw.all (fun kv => spec_snapshot_entry kv.2)
     | _ => false)
  | _ => false

/-! ## The history log (`RatesStorage.append_history`, storage lines 79–99) -/

/-- One history record as built by `run_update` (lines 129–142); `rid` is
the `"id"` field (`none` models a record without one), `meta` is omitted
(never consulted by the deduplication). -/
structure HistoryRecord where
  rid : Option String
  from_currency : String
  to_currency : String
  rate : ℚ
  timestamp : TsStr
  source : String
deriving DecidableEq, Repr

/-- Python truthiness of an optional id string. -/
def truthyId : Option String → Bool
  | some s => s != ""
  | none => false

/-- The synthetic history id `run_update` builds:
`f"{from_currency}_{to_currency}_{timestamp}"`. -/
def mkHistoryId (from_currency to_currency ts_repr : String) : String :=
  from_currency ++ "_" ++ to_currency ++ "_" ++ ts_repr

/-- The id set `existing_ids` collected from a stored history (storage
lines 85–89): the truthy ids, here in list form. -/
def existingIds (history : List HistoryRecord) : List String :=
  history.filterMap fun r =>
    match r.rid with
    | some s => if s = "" then none else some s
    | none => none

/-- The append loop of `append_history` (storage lines 91–97): skip a
record whose truthy id is already known, otherwise append it and record
its id. -/
def appendLoop : List HistoryRecord → List HistoryRecord → List String →
    List HistoryRecord
  | [], acc, _ => acc
  | r :: rs, acc, ids =>
    match r.rid with
    | some s =>
      if s != "" && decide (s ∈ ids) then appendLoop rs acc ids
      else appendLoop rs (acc ++ [r]) (if s != "" then s :: ids else ids)
    | none => appendLoop rs (acc ++ [r]) ids

/-- `RatesStorage.append_history`: returns the history list written back
(unchanged for an empty batch). -/
def append_history (history entries : List HistoryRecord) : List HistoryRecord :=
  if entries.isEmpty then history
  else appendLoop entries history (existingIds history)

/-! ## The consumer read path (`RateUseCases.get_exchange_rate`) -/

/-- The errors `get_exchange_rate` can raise.  `staleData` stands for the
`ApiRequestError("Не удалось обновить курсы")` of the stale branch (the
spec's `StaleDataError`); `rateUnavailable` for `RateUnavailableError`. -/
inductive RateError where
  | emptyValue : RateError
  | currencyNotFound : RateError
  | rateUnavailable : RateError
  | staleData : RateError
deriving DecidableEq, Repr

/-- The staleness branch of `get_exchange_rate` (usecases lines 600–608)
applied to a loaded pair `pd`, with `refresh` the outcome of the
`_refresh_rates()` call it would make: its success flag and the rates
table it leaves behind. -/
def stale_phase (ttl now : Int) (refresh : Bool × RatesMap) (f t : String)
    (pd : ℚ × TsStr) : Except RateError (ℚ × TsStr) :=
  if is_stale pd.2 ttl now then
    if refresh.1 then
      match load_pair_rate refresh.2 f t with
      | none => .error .rateUnavailable
      | some pd2 =>
        if is_stale pd2.2 ttl now then .error .staleData else .ok pd2
    else .error .staleData
  else .ok pd

/-- `RateUseCases.get_exchange_rate` (usecases lines 557–608), modelled up
to the `(rate_value, updated_at)` it formats.  `registry` is the currency
registry behind `get_currency`; `refresh1`/`refresh2` are the outcomes of
the first and second `_refresh_rates()` call, in call order, should they
be made. -/
def get_exchange_rate (registry : String → Bool) (ttl now : Int)
    (cache : RatesMap) (refresh1 refresh2 : Bool × RatesMap)
    (from_currency to_currency : String) : Except RateError (ℚ × TsStr) :=
  let f := pyUpper from_currency
  let t := pyUpper to_currency
  if f = "" ∨ t = "" then .error .emptyValue
  else if !registry f then .error .currencyNotFound
  else if !registry t then .error .currencyNotFound
  else
    match load_pair_rate cache f t with
    | some pd => stale_phase ttl now refresh1 f t pd
    | none =>
      if refresh1.1 then
        match load_pair_rate refresh1.2 f t with
        | none => .error .rateUnavailable
        | some pd => stale_phase ttl now refresh2 f t pd
      else .error .rateUnavailable

/-- Decidable equality for `Except` outcomes, used to evaluate the models
on concrete inputs. -/
instance exceptDecEq {ε α : Type} [DecidableEq ε] [DecidableEq α] :
    DecidableEq (Except ε α) := fun x y =>
  match x, y with
  | .ok a, .ok b =>
    match decEq a b with
    | isTrue h => isTrue (h ▸ rfl)
    | isFalse h => isFalse fun hh => h (Except.ok.inj hh)
  | .error e, .error e' =>
    match decEq e e' with
    | isTrue h => isTrue (h ▸ rfl)
    | isFalse h => isFalse fun hh => h (Except.error.inj hh)
  | .ok _, .error _ => isFalse fun hh => Except.noConfusion hh
  | .error _, .ok _ => isFalse fun hh => Except.noConfusion hh

end ValutaTrade

namespace ValutaTrade

/-! ## Association-list facts about the JSON object model -/

/-- `hasKey` is the decidable face of `jlookup`. -/
theorem hasKey_eq_false_iff (fields : List (String × JVal)) (key : String) :
    hasKey fields key = false ↔ jlookup fields key = none := by
  cases h : jlookup fields key <;> simp [hasKey, h]

/-- Looking a key up past a block that does not contain it. -/
theorem jlookup_append_right (xs ys : List (String × JVal)) (key : String)
    (h : jlookup xs key = none) : jlookup (xs ++ ys) key = jlookup ys key := by
  induction xs with
  | nil => rfl
  | cons a rest ih =>
    obtain ⟨ka, va⟩ := a
    by_cases hk : ka = key
    · simp [jlookup, hk] at h
    · simp only [jlookup, if_neg hk] at h
      simpa [jlookup, hk] using ih h

/-- A key that looks up to nothing heads no element of the list. -/
theorem jlookup_eq_none_keys (fields : List (String × JVal)) (key : String)
    (h : jlookup fields key = none) : ∀ kv ∈ fields, kv.1 ≠ key := by
  induction fields with
  | nil => simp
  | cons a rest ih =>
    obtain ⟨ka, va⟩ := a
    by_cases hk : ka = key
    · simp [jlookup, hk] at h
    · simp only [jlookup, if_neg hk] at h
      intro kv hkv
      rcases List.mem_cons.mp hkv with hkv | hkv
      · subst hkv; exact hk
      · exact ih h kv hkv

/-- C7: the staleness predicate `_is_stale` never reports stale when the
configured `ttl_seconds` is non-positive (staleness checking disabled),
and for a positive TTL a missing, malformed or unparsable `updated_at`
always counts as stale (maximally stale), never as fresh. -/
theorem is_stale_ttl_and_malformed (updated_at : TsStr) (ttl now : Int) :
    (ttl ≤ 0 → is_stale updated_at ttl now = false) ∧
    (0 < ttl → updated_at = .missing ∨ updated_at = .bad →
      is_stale updated_at ttl now = true) := by
  constructor
  · intro h
    simp [is_stale, h]
  · intro hpos hbad
    rcases hbad with h | h <;> subst h <;> simp [is_stale, not_le.mpr hpos]

/-- C7 witness: at TTL `0` nothing is stale; at TTL `60` a malformed
timestamp is stale. -/
theorem is_stale_ttl_and_malformed_witness :
    is_stale (.iso 5) 0 1000000 = false ∧ is_stale .bad 60 1000000 = true :=
  ⟨(is_stale_ttl_and_malformed (.iso 5) 0 1000000).1 (by decide),
   (is_stale_ttl_and_malformed .bad 60 1000000).2 (by decide) (Or.inr rfl)⟩

/-- C3 counterexample: the consumer-facing lookup has no same-currency
shortcut — `get_exchange_rate("USD", "USD")` on an empty cache (the
registry knows `USD`; the refresh leaves the cache empty) fails with the
rate-unavailable error instead of returning the rate `1.0`. -/
theorem get_exchange_rate_same_currency_cex :
    get_exchange_rate (fun c => c == "USD") 3600 10000 (fun _ => none)
      (false, fun _ => none) (false, fun _ => none) "USD" "USD"
      = .error .rateUnavailable ∧
    (Except.error RateError.rateUnavailable ≠
      (Except.ok ((1 : ℚ), TsStr.missing) : Except RateError (ℚ × TsStr))) :=
  ⟨by decide, by decide⟩

/-- C3 (amended): the portfolio-layer helper `Database.get_rate(X, X)`
returns the rate `1.0` for every cache state and does not fail (its
same-currency short circuit fires before any table access); but the
consumer-facing `get_exchange_rate` performs no same-currency shortcut:
for a registered code `X` whose `X_X` pair is absent from the cache (and
from the cache left by the refresh), `get_exchange_rate(X, X)` fails
with the rate-unavailable error rather than returning `1.0`. -/
theorem same_currency_rate_lookup :
    (∀ (pairs : RatesMap) (x : String),
      db_get_rate pairs x x = .ok (some (.num 1))) ∧
    (∀ (registry : String → Bool) (ttl now : Int) (cache : RatesMap)
        (r1 r2 : Bool × RatesMap) (x : String),
      pyUpper x ≠ "" →
      registry (pyUpper x) = true →
      cache ((pyUpper x) ++ "_" ++ (pyUpper x)) = none →
      r1.2 ((pyUpper x) ++ "_" ++ (pyUpper x)) = none →
      get_exchange_rate registry ttl now cache r1 r2 x x
        = .error .rateUnavailable) := by
  constructor
  · intro pairs x
    simp [db_get_rate]
  · intro registry ttl now cache r1 r2 x hx hreg hc hr
    have hload : load_pair_rate cache (pyUpper x) (pyUpper x) = none := by
      simp [load_pair_rate, hc]
    have hload2 : load_pair_rate r1.2 (pyUpper x) (pyUpper x) = none := by
      simp [load_pair_rate, hr]
    by_cases h1 : r1.1 = true
    · simp [get_exchange_rate, hx, hreg, hload, hload2, h1]
    · simp [get_exchange_rate, hx, hreg, hload, h1]

/-- C3 witness: the amended behaviour at `USD` over an empty cache, with
a refresh that succeeds but leaves no `USD_USD` entry. -/
theorem same_currency_rate_lookup_witness :
    db_get_rate (fun _ => none) "USD" "USD" = .ok (some (.num 1)) ∧
    get_exchange_rate (fun c => c == "USD") 3600 10000 (fun _ => none)
      (true, fun _ => none) (false, fun _ => none) "USD" "USD"
      = .error .rateUnavailable :=
  ⟨same_currency_rate_lookup.1 (fun _ => none) "USD",
   same_currency_rate_lookup.2 (fun c => c == "USD") 3600 10000 (fun _ => none)
     (true, fun _ => none) (false, fun _ => none) "USD"
     (by decide) (by decide) rfl rfl⟩

/-- C2 counterexample: for the one-pair table `{"EUR_USD": {rate,
updated_at, source}}`, the document `write_snapshot` serialises keeps the
pair entry at the top level — it does not have the spec's stable format
(no top-level `"pairs"` key; `"EUR_USD"` is a third top-level key). -/
theorem write_snapshot_not_spec_format :
    spec_snapshot_format
      (write_snapshot
        [("EUR_USD", .jobj [("rate", .jnum 1), ("updated_at", .jstr "2024-01-01T00:00:00Z"),
          ("source", .jstr "CoinGecko")])]
        (.jstr "2024-01-01T00:00:00Z")) = false ∧
    spec_snapshot_entry
      (.jobj [("rate", .jnum 1), ("updated_at", .jstr "2024-01-01T00:00:00Z"),
        ("source", .jstr "CoinGecko")]) = true := by
  exact ⟨rfl, rfl⟩

/-- C2 (amended): `write_snapshot` persists the flat legacy layout — the
pair entries themselves as top-level keys plus a `"last_refresh"` key —
and `load_snapshot` reads back exactly the pairs and `last_refresh` that
were written, provided each pair value is an object carrying a `"rate"`
field and no pair key is named `"pairs"` or `"last_refresh"`. -/
theorem write_snapshot_flat_roundtrip (pairs : List (String × JVal)) (lr : JVal)
    (hp : hasKey pairs "pairs" = false)
    (hl : hasKey pairs "last_refresh" = false)
    (hr : ∀ kv ∈ pairs, isRateEntry kv.2 = true) :
    write_snapshot pairs lr = .jobj (pairs ++ [("last_refresh", lr)]) ∧
    load_snapshot (.content (write_snapshot pairs lr)) = (pairs, lr) := by
  have hp' : jlookup pairs "pairs" = none := (hasKey_eq_false_iff _ _).mp hp
  have hl' : jlookup pairs "last_refresh" = none := (hasKey_eq_false_iff _ _).mp hl
  have hw : write_snapshot pairs lr = .jobj (pairs ++ [("last_refresh", lr)]) := by
    simp [write_snapshot, dictSet, hl]
  refine ⟨hw, ?_⟩
  rw [hw]
  have hgp : jget (pairs ++ [("last_refresh", lr)]) "pairs" = .jnull := by
    rw [jget, jlookup_append_right _ _ _ hp']
    simp [jlookup]
  have hglr : jget (pairs ++ [("last_refresh", lr)]) "last_refresh" = lr := by
    rw [jget, jlookup_append_right _ _ _ hl']
    simp [jlookup]
  have hfil :
      (pairs ++ [("last_refresh", lr)]).filter
        (fun kv => kv.1 != "last_refresh" && isRateEntry kv.2) = pairs := by
    rw [List.filter_append]
    have h1 : pairs.filter (fun kv => kv.1 != "last_refresh" && isRateEntry kv.2) = pairs := by
      rw [List.filter_eq_self]
      intro kv hkv
      have hne : kv.1 ≠ "last_refresh" := jlookup_eq_none_keys pairs _ hl' kv hkv
      simp [hne, hr kv hkv]
    have h2 : ([(("last_refresh" : String), lr)]).filter
        (fun kv => kv.1 != "last_refresh" && isRateEntry kv.2) = [] := by
      simp [List.filter]
    rw [h1, h2, List.append_nil]
  simp only [load_snapshot, hgp, hglr, hfil]

/-- C2 witness: the round trip at the concrete one-pair table. -/
theorem write_snapshot_flat_roundtrip_witness :
    load_snapshot (.content (write_snapshot
        [("EUR_USD", .jobj [("rate", .jnum 1)])] (.jstr "T")))
      = ([("EUR_USD", .jobj [("rate", .jnum 1)])], .jstr "T") :=
  (write_snapshot_flat_roundtrip [("EUR_USD", .jobj [("rate", .jnum 1)])] (.jstr "T")
    rfl rfl (by intro kv hkv; simp at hkv; rw [hkv]; rfl)).2

/-- C9: `load_snapshot` is total over file states — a missing, unreadable,
non-JSON or non-object file yields the empty table `(pairs = {},
last_refresh = None)` — and on the older flat format (no `"pairs"` key)
it returns, under the `pairs` component and preserving order, exactly the
top-level entries that are objects carrying a `"rate"` field, skipping
the `last_refresh` key, together with the file's `last_refresh`. -/
theorem load_snapshot_total_and_flat :
    (load_snapshot .missing = ([], .jnull) ∧
     load_snapshot .unreadable = ([], .jnull) ∧
     load_snapshot .badJson = ([], .jnull)) ∧
    (∀ v : JVal, (∀ fields, v ≠ .jobj fields) →
      load_snapshot (.content v) = ([], .jnull)) ∧
    (∀ fields : List (String × JVal), hasKey fields "pairs" = false →
      (load_snapshot (.content (.jobj fields))).2 = jget fields "last_refresh" ∧
      ((load_snapshot (.content (.jobj fields))).1).Sublist fields ∧
      (∀ (k : String) (v' : JVal),
        (k, v') ∈ (load_snapshot (.content (.jobj fields))).1 ↔
          ((k, v') ∈ fields ∧ k ≠ "last_refresh" ∧ isRateEntry v' = true))) := by
  refine ⟨⟨rfl, rfl, rfl⟩, ?_, ?_⟩
  · intro v h
    cases v with
    | jnull => rfl
    | jbool b => rfl
    | jnum q => rfl
    | jstr s => rfl
    | jarr xs => rfl
    | jobj fields => exact absurd rfl (h fields)
  · intro fields hp
    have hp' : jlookup fields "pairs" = none := (hasKey_eq_false_iff _ _).mp hp
    have hgp : jget fields "pairs" = .jnull := by rw [jget, hp']; rfl
    have hload : load_snapshot (.content (.jobj fields)) =
        (fields.filter (fun kv => kv.1 != "last_refresh" && isRateEntry kv.2),
         jget fields "last_refresh") := by
      simp only [load_snapshot, hgp]
    rw [hload]
    refine ⟨rfl, List.filter_sublist _, ?_⟩
    intro k v'
    simp only [List.mem_filter]
    constructor
    · rintro ⟨hmem, hcond⟩
      simp only [Bool.and_eq_true, bne_iff_ne, ne_eq] at hcond
      exact ⟨hmem, hcond.1, hcond.2⟩
    · rintro ⟨hmem, hk, hrate⟩
      refine ⟨hmem, ?_⟩
      simp [hk, hrate]

/-- C9 witness: a non-object file yields the empty table; a flat-format
file with one rate entry and a `last_refresh` key is normalised. -/
theorem load_snapshot_total_and_flat_witness :
    load_snapshot (.content (.jnum 3)) = ([], .jnull) ∧
    (("EUR_USD", JVal.jobj [("rate", JVal.jnum 1)]) ∈
      (load_snapshot (.content (.jobj
        [("EUR_USD", .jobj [("rate", .jnum 1)]), ("last_refresh", .jstr "T")]))).1) := by
  constructor
  · exact load_snapshot_total_and_flat.2.1 (.jnum 3) (fun fields h => JVal.noConfusion h)
  · exact ((load_snapshot_total_and_flat.2.2
      [("EUR_USD", .jobj [("rate", .jnum 1)]), ("last_refresh", .jstr "T")] rfl).2.2
      "EUR_USD" (.jobj [("rate", .jnum 1)])).mpr
      ⟨by simp, by simp, rfl⟩

/-! ## Merge-step facts -/

theorem mupd_self (m : RatesMap) (key : String) (v : CacheVal) :
    mupd m key v key = some v := by
  simp [mupd]

theorem mupd_ne (m : RatesMap) (key : String) (v : CacheVal) (k : String)
    (h : k ≠ key) : mupd m key v k = m k := by
  simp [mupd, h]

theorem entryUpdatedAt_sampleEntry (s : Sample) :
    entryUpdatedAt (some (sampleEntry s)) = s.timestamp := rfl

/-- The merge accepts a sample when the current entry has no parsable
timestamp. -/
theorem mergeStep_of_none (now : Int) (m : RatesMap) (s : Sample)
    (h : iso_to_datetime (entryUpdatedAt (m s.pair)) = none) :
    mergeStep now m s = (mupd m s.pair (sampleEntry s), true) := by
  simp [mergeStep, h]

/-- The merge accepts a sample that is the same age or newer than the
current entry. -/
theorem mergeStep_write (now : Int) (m : RatesMap) (s : Sample) (t st : Int)
    (h : iso_to_datetime (entryUpdatedAt (m s.pair)) = some t)
    (hs : s.timestamp = .iso st) (hge : t ≤ st) :
    mergeStep now m s = (mupd m s.pair (sampleEntry s), true) := by
  simp only [mergeStep]
  rw [h, hs]
  simp [iso_to_datetime, hge]

/-- The merge discards a sample strictly older than the current entry. -/
theorem mergeStep_skip (now : Int) (m : RatesMap) (s : Sample) (t st : Int)
    (h : iso_to_datetime (entryUpdatedAt (m s.pair)) = some t)
    (hs : s.timestamp = .iso st) (hlt : st < t) :
    mergeStep now m s = (m, false) := by
  simp only [mergeStep]
  rw [h, hs]
  simp [iso_to_datetime, not_le.mpr hlt]

/-- The `updated_pairs` accumulator only grows along the merge loop. -/
theorem mergeLoop_upd_mono (now : Int) (ss : List Sample) (m : RatesMap)
    (upd : List String) (p : String) (h : p ∈ upd) :
    p ∈ (mergeLoop now ss m upd).2 := by
  induction ss generalizing m upd with
  | nil => exact h
  | cons s rest ih =>
    simp only [mergeLoop]
    apply ih
    by_cases hw : (mergeStep now m s).2 = true
    · simp only [hw, if_true]
      by_cases hm : s.pair ∈ upd
      · simpa [hm] using h
      · simp only [hm, if_false]
        exact List.mem_append_left _ h
    · simp only [Bool.not_eq_true] at hw
      simpa [hw] using h

/-- Every pair key actually written during the merge appears in the
cycle's `updated_pairs`. -/
theorem writtenPairs_reported (now : Int) (ss : List Sample) (m : RatesMap)
    (upd : List String) (p : String) (h : p ∈ writtenPairs now m ss) :
    p ∈ (mergeLoop now ss m upd).2 := by
  induction ss generalizing m upd with
  | nil => simp [writtenPairs] at h
  | cons s rest ih =>
    simp only [writtenPairs] at h
    simp only [mergeLoop]
    rcases List.mem_append.mp h with h1 | h2
    · by_cases hw : (mergeStep now m s).2 = true
      · simp only [hw, if_true] at h1 ⊢
        simp only [List.mem_singleton] at h1
        subst h1
        apply mergeLoop_upd_mono
        by_cases hm : s.pair ∈ upd
        · simp only [hm, if_true]
        · simp only [hm, if_false]
          exact List.mem_append_right _ (by simp)
      · simp only [Bool.not_eq_true] at hw
        simp [hw] at h1
    · exact ih _ _ h2

/-- First component of a two-sample merge. -/
theorem mergeLoop_fst_two (now : Int) (x y : Sample) (m : RatesMap)
    (upd : List String) :
    (mergeLoop now [x, y] m upd).1 = (mergeStep now (mergeStep now m x).1 y).1 := by
  simp only [mergeLoop]

/-- C4: one merge iteration of `run_update` accepts a sample — writing its
rate, timestamp and source over the pair's entry — exactly when the pair
has no existing entry or the sample's timestamp is the same age or newer
than the existing entry's `updated_at`; otherwise the table is left
unchanged and the sample is discarded; entries of other pairs are never
touched; and every pair actually written is reported in the cycle's
`updated_pairs` list. -/
theorem merge_last_writer_wins :
    (∀ (now : Int) (m : RatesMap) (s : Sample) (st : Int),
      s.timestamp = .iso st →
      (∀ e, m s.pair = some e →
        ∃ t, iso_to_datetime (entryUpdatedAt (some e)) = some t) →
      (((mergeStep now m s).2 = true ∧
          (mergeStep now m s).1 s.pair = some (sampleEntry s)) ↔
        (m s.pair = none ∨ ∃ e t, m s.pair = some e ∧
          iso_to_datetime (entryUpdatedAt (some e)) = some t ∧ t ≤ st)) ∧
      ((mergeStep now m s).2 = false → (mergeStep now m s).1 = m) ∧
      (∀ k, k ≠ s.pair → (mergeStep now m s).1 k = m k)) ∧
    (∀ (now : Int) (m0 : RatesMap) (ss : List Sample) (p : String),
      p ∈ writtenPairs now m0 ss → p ∈ (mergeLoop now ss m0 []).2) := by
  constructor
  · intro now m s st hs hparse
    rcases hm : m s.pair with _ | e
    · have hnone : iso_to_datetime (entryUpdatedAt (m s.pair)) = none := by
        rw [hm]; rfl
      rw [mergeStep_of_none now m s hnone]
      refine ⟨?_, ?_, ?_⟩
      · simp [mupd, hm]
      · intro hfalse; simp at hfalse
      · intro k hk; exact mupd_ne _ _ _ _ hk
    · obtain ⟨t, ht⟩ := hparse e hm
      have ht' : iso_to_datetime (entryUpdatedAt (m s.pair)) = some t := by
        rw [hm]; exact ht
      by_cases hge : t ≤ st
      · rw [mergeStep_write now m s t st ht' hs hge]
        refine ⟨?_, ?_, ?_⟩
        · constructor
          · intro _; exact Or.inr ⟨e, t, rfl, ht, hge⟩
          · intro _; exact ⟨rfl, mupd_self _ _ _⟩
        · intro hfalse; simp at hfalse
        · intro k hk; exact mupd_ne _ _ _ _ hk
      · rw [mergeStep_skip now m s t st ht' hs (not_le.mp hge)]
        refine ⟨?_, ?_, ?_⟩
        · constructor
          · rintro ⟨hfalse, -⟩; simp at hfalse
          · intro hrhs
            exfalso
            rcases hrhs with hnone | ⟨e', t', hm', ht'', hle'⟩
            · simp at hnone
            · have he : e = e' := Option.some.inj hm'
              subst he
              have hte : t = t' := Option.some.inj (ht.symm.trans ht'')
              exact hge (hte ▸ hle')
        · intro _; rfl
        · intro k _; rfl
  · intro now m0 ss p hp
    exact writtenPairs_reported now ss m0 [] p hp

/-- C4 witness: a sample two seconds newer than the stored entry is
accepted and written over it. -/
theorem merge_last_writer_wins_witness :
    (mergeStep 0 (fun _ => some (.entry (some (.num 5)) (.iso 10) (some "Seed")))
        ⟨"EUR", "USD", 2, "b", .iso 12⟩).2 = true ∧
    (mergeStep 0 (fun _ => some (.entry (some (.num 5)) (.iso 10) (some "Seed")))
        ⟨"EUR", "USD", 2, "b", .iso 12⟩).1 (Sample.pair ⟨"EUR", "USD", 2, "b", .iso 12⟩)
      = some (sampleEntry ⟨"EUR", "USD", 2, "b", .iso 12⟩) :=
  ((merge_last_writer_wins.1 0
      (fun _ => some (.entry (some (.num 5)) (.iso 10) (some "Seed")))
      ⟨"EUR", "USD", 2, "b", .iso 12⟩ 12 rfl
      (fun e he => ⟨10, by rw [← Option.some.inj he]; rfl⟩)).1).mpr
    (Or.inr ⟨.entry (some (.num 5)) (.iso 10) (some "Seed"), 10, rfl, rfl, by decide⟩)

/-- C5 counterexample: with a starting snapshot whose entry for the pair
is newer than both samples (seed timestamp 10, rate 5; A at timestamp 1,
B at timestamp 2), merging A,B in either order leaves the seed entry, so
the stored rate is 5, not B's rate 2 — the claim's conclusion fails for
this starting snapshot. -/
theorem merge_order_fresh_entry_cex :
    (mergeLoop 0 [⟨"EUR", "USD", 1, "a", .iso 1⟩, ⟨"EUR", "USD", 2, "b", .iso 2⟩]
        (fun k => if k = "EUR_USD" then
          some (.entry (some (.num 5)) (.iso 10) (some "Seed")) else none) []).1
        "EUR_USD" = some (.entry (some (.num 5)) (.iso 10) (some "Seed")) ∧
    (mergeLoop 0 [⟨"EUR", "USD", 2, "b", .iso 2⟩, ⟨"EUR", "USD", 1, "a", .iso 1⟩]
        (fun k => if k = "EUR_USD" then
          some (.entry (some (.num 5)) (.iso 10) (some "Seed")) else none) []).1
        "EUR_USD" = some (.entry (some (.num 5)) (.iso 10) (some "Seed")) ∧
    Sample.rate ⟨"EUR", "USD", 2, "b", .iso 2⟩ = 2 ∧ (5 : ℚ) ≠ 2 :=
  ⟨rfl, rfl, rfl, by decide⟩

/-- C5 (amended): for samples A, B on the same pair with parsable
timestamps and `A.timestamp < B.timestamp`, merging the two in either
order stores B's entry (hence B's rate) — provided the starting
snapshot's entry for the pair, when present with a parsable timestamp,
is not newer than B; a starting entry strictly newer than B survives
both orders instead. -/
theorem merge_order_independent_lww (now : Int) (m0 : RatesMap) (A B : Sample)
    (ta tb : Int) (hpair : A.pair = B.pair)
    (hA : A.timestamp = .iso ta) (hB : B.timestamp = .iso tb) (hlt : ta < tb)
    (hstart : ∀ t, iso_to_datetime (entryUpdatedAt (m0 B.pair)) = some t → t ≤ tb) :
    (mergeLoop now [A, B] m0 []).1 B.pair = some (sampleEntry B) ∧
    (mergeLoop now [B, A] m0 []).1 B.pair = some (sampleEntry B) := by
  constructor
  · rw [mergeLoop_fst_two]
    have hsecond : ∀ m1 : RatesMap, m1 B.pair = some (sampleEntry A) →
        (mergeStep now m1 B).1 B.pair = some (sampleEntry B) := by
      intro m1 hm1
      have hc2 : iso_to_datetime (entryUpdatedAt (m1 B.pair)) = some ta := by
        rw [hm1, entryUpdatedAt_sampleEntry, hA]; rfl
      rw [mergeStep_write now m1 B ta tb hc2 hB (le_of_lt hlt)]
      exact mupd_self _ _ _
    rcases hc : iso_to_datetime (entryUpdatedAt (m0 A.pair)) with _ | t
    · rw [mergeStep_of_none now m0 A hc]
      exact hsecond _ (by rw [← hpair]; exact mupd_self _ _ _)
    · have htb : t ≤ tb := hstart t (by rw [← hpair]; exact hc)
      by_cases hta : t ≤ ta
      · rw [mergeStep_write now m0 A t ta hc hA hta]
        exact hsecond _ (by rw [← hpair]; exact mupd_self _ _ _)
      · rw [mergeStep_skip now m0 A t ta hc hA (not_le.mp hta)]
        have hc' : iso_to_datetime (entryUpdatedAt (m0 B.pair)) = some t := by
          rw [← hpair]; exact hc
        rw [mergeStep_write now m0 B t tb hc' hB htb]
        exact mupd_self _ _ _
  · rw [mergeLoop_fst_two]
    have hstep1 : mergeStep now m0 B = (mupd m0 B.pair (sampleEntry B), true) := by
      rcases hc : iso_to_datetime (entryUpdatedAt (m0 B.pair)) with _ | t
      · exact mergeStep_of_none now m0 B hc
      · exact mergeStep_write now m0 B t tb hc hB (hstart t hc)
    rw [hstep1]
    have hc2 : iso_to_datetime
        (entryUpdatedAt ((mupd m0 B.pair (sampleEntry B)) A.pair)) = some tb := by
      rw [hpair, mupd_self, entryUpdatedAt_sampleEntry, hB]; rfl
    rw [mergeStep_skip now _ A tb ta hc2 hA hlt]
    exact mupd_self _ _ _

/-- C5 witness: the amended order-independence at two concrete samples
over an empty starting snapshot. -/
theorem merge_order_independent_lww_witness :
    (mergeLoop 0 [⟨"EUR", "USD", 1, "a", .iso 1⟩, ⟨"EUR", "USD", 2, "b", .iso 2⟩]
        (fun _ => none) []).1 (Sample.pair ⟨"EUR", "USD", 2, "b", .iso 2⟩)
      = some (sampleEntry ⟨"EUR", "USD", 2, "b", .iso 2⟩) ∧
    (mergeLoop 0 [⟨"EUR", "USD", 2, "b", .iso 2⟩, ⟨"EUR", "USD", 1, "a", .iso 1⟩]
        (fun _ => none) []).1 (Sample.pair ⟨"EUR", "USD", 2, "b", .iso 2⟩)
      = some (sampleEntry ⟨"EUR", "USD", 2, "b", .iso 2⟩) :=
  merge_order_independent_lww 0 (fun _ => none) _ _ 1 2 rfl rfl rfl (by decide)
    (fun t h => Option.noConfusion h)

/-! ## Fetch-phase facts -/

/-- The error list collects exactly the failing clients, with their
messages. -/
theorem fetchPhase_errors_mem (rs : List (String × FetchResult)) (name msg : String) :
    (name, msg) ∈ (fetchPhase rs).2.1 ↔ (name, FetchResult.fail msg) ∈ rs := by
  induction rs with
  | nil => simp [fetchPhase]
  | cons c rest ih =>
    obtain ⟨n, fr⟩ := c
    cases fr with
    | ok ss => simp [fetchPhase, List.mem_cons, ih, Prod.ext_iff]
    | fail m => simp [fetchPhase, List.mem_cons, ih, Prod.ext_iff]

/-- Some error was recorded iff some active client failed. -/
theorem fetchPhase_errors_ne_nil (rs : List (String × FetchResult)) :
    (fetchPhase rs).2.1 ≠ [] ↔ ∃ name msg, (name, FetchResult.fail msg) ∈ rs := by
  constructor
  · intro h
    rcases List.exists_mem_of_ne_nil _ h with ⟨⟨name, msg⟩, hmem⟩
    exact ⟨name, msg, (fetchPhase_errors_mem rs name msg).mp hmem⟩
  · rintro ⟨name, msg, hmem⟩
    exact List.ne_nil_of_mem ((fetchPhase_errors_mem rs name msg).mpr hmem)

/-- A client that returned at least one sample makes the aggregated
sample list non-empty. -/
theorem fetchPhase_samples_of_ok (rs : List (String × FetchResult))
    (name : String) (ss : List Sample) (h : (name, FetchResult.ok ss) ∈ rs)
    (hss : ss ≠ []) : (fetchPhase rs).1 ≠ [] := by
  induction rs with
  | nil => simp at h
  | cons c rest ih =>
    obtain ⟨n, fr⟩ := c
    cases fr with
    | ok ss' =>
      simp only [fetchPhase]
      intro hcontra
      rw [List.append_eq_nil] at hcontra
      rcases List.mem_cons.mp h with heq | hmem
      · have hss' : ss = ss' := by
          have h2 := (Prod.ext_iff.mp heq).2
          exact FetchResult.ok.inj h2
        exact hss (hss' ▸ hcontra.1)
      · exact ih hmem hcontra.2
    | fail m =>
      rcases List.mem_cons.mp h with heq | hmem
      · have h2 := (Prod.ext_iff.mp heq).2
        exact absurd h2 (by simp)
      · simpa only [fetchPhase] using ih hmem

/-- C1 counterexample: a cycle in which one active client succeeds with
zero samples while the other fails still aborts with the
all-providers-failed error, although not every active client failed. -/
theorem run_update_abort_despite_success :
    ("CoinGecko", FetchResult.ok []) ∈
      ([("CoinGecko", FetchResult.ok []),
        ("ExchangeRate-API", FetchResult.fail "HTTP 500")] :
        List (String × FetchResult)) ∧
    run_update 0 (fun _ => none)
      [("CoinGecko", FetchResult.ok []),
       ("ExchangeRate-API", FetchResult.fail "HTTP 500")]
      = .error .allProvidersFailed :=
  ⟨List.mem_cons_self _ _, rfl⟩

/-- C1 (amended): a cycle (with at least one active client) aborts with
the all-providers-failed error exactly when zero samples were aggregated
and at least one active client failed; whenever some active client
returns at least one sample, the cycle completes and the failures of the
other clients are exactly the entries of the error list. -/
theorem run_update_all_failed_iff (now : Int) (snapshot : RatesMap)
    (active : List (String × FetchResult)) (hne : active ≠ []) :
    (run_update now snapshot active = .error .allProvidersFailed ↔
      ((fetchPhase active).1 = [] ∧
        ∃ name msg, (name, FetchResult.fail msg) ∈ active)) ∧
    (∀ name ss, (name, FetchResult.ok ss) ∈ active → ss ≠ [] →
      ∃ out, run_update now snapshot active = .ok out ∧
        ∀ nm msg, ((nm, msg) ∈ out.errors ↔ (nm, FetchResult.fail msg) ∈ active)) := by
  have hE : active.isEmpty = false := by
    cases active with
    | nil => exact absurd rfl hne
    | cons c rest => rfl
  have hru : run_update now snapshot active =
      (if (fetchPhase active).1.isEmpty && !(fetchPhase active).2.1.isEmpty then
        (.error .allProvidersFailed : Except UpdateError UpdateOutcome)
      else
        .ok ⟨(mergeLoop now (fetchPhase active).1 (normalizeSnapshot snapshot) []).1,
             (mergeLoop now (fetchPhase active).1 (normalizeSnapshot snapshot) []).2,
             (fetchPhase active).2.1, (fetchPhase active).2.2⟩) := by
    simp [run_update, hE]
  constructor
  · by_cases hcond :
        ((fetchPhase active).1.isEmpty && !(fetchPhase active).2.1.isEmpty) = true
    · rw [hru, if_pos hcond]
      simp only [Bool.and_eq_true, Bool.not_eq_true', List.isEmpty_iff,
        List.isEmpty_eq_false] at hcond
      exact iff_of_true rfl ⟨hcond.1, (fetchPhase_errors_ne_nil active).mp hcond.2⟩
    · rw [hru, if_neg (by simp [Bool.not_eq_true] at hcond ⊢; exact hcond)]
      constructor
      · intro h; exact absurd h (by simp)
      · rintro ⟨hsamp, name, msg, hmem⟩
        exfalso
        apply hcond
        have h1 : (fetchPhase active).1.isEmpty = true := by rw [hsamp]; rfl
        have h2 : (fetchPhase active).2.1.isEmpty = false := by
          have hne2 := List.ne_nil_of_mem
            ((fetchPhase_errors_mem active name msg).mpr hmem)
          cases hcase : (fetchPhase active).2.1 with
          | nil => exact absurd hcase hne2
          | cons a l => rfl
        rw [h1, h2]; rfl
  · intro name ss hmem hss
    have hsne : (fetchPhase active).1 ≠ [] := fetchPhase_samples_of_ok active name ss hmem hss
    have hcond :
        ((fetchPhase active).1.isEmpty && !(fetchPhase active).2.1.isEmpty) = false := by
      cases h : (fetchPhase active).1 with
      | nil => exact absurd h hsne
      | cons a l => rfl
    refine ⟨_, by rw [hru, if_neg (by simp [hcond])], ?_⟩
    intro nm msg
    exact fetchPhase_errors_mem active nm msg

/-- C1 witness: a lone failing client aborts the cycle; a cycle with one
sample-producing client and one failing client completes, recording the
failure. -/
theorem run_update_all_failed_iff_witness :
    run_update 0 (fun _ => none) [("CoinGecko", FetchResult.fail "down")]
      = .error .allProvidersFailed ∧
    (∃ out, run_update 0 (fun _ => none)
        [("CoinGecko", FetchResult.ok [⟨"BTC", "USD", 59000, "CoinGecko", .iso 5⟩]),
         ("ExchangeRate-API", FetchResult.fail "HTTP 500")] = .ok out ∧
      ∀ nm msg, ((nm, msg) ∈ out.errors ↔ (nm, FetchResult.fail msg) ∈
        [("CoinGecko", FetchResult.ok [⟨"BTC", "USD", 59000, "CoinGecko", .iso 5⟩]),
         ("ExchangeRate-API", FetchResult.fail "HTTP 500")])) := by
  constructor
  · exact (run_update_all_failed_iff 0 (fun _ => none) _ (by simp)).1.mpr
      ⟨rfl, "CoinGecko", "down", by simp⟩
  · exact (run_update_all_failed_iff 0 (fun _ => none) _ (by simp)).2
      "CoinGecko" [⟨"BTC", "USD", 59000, "CoinGecko", .iso 5⟩] (by simp) (by simp)

/-! ## History-log facts -/

theorem existingIds_append (xs ys : List HistoryRecord) :
    existingIds (xs ++ ys) = existingIds xs ++ existingIds ys :=
  List.filterMap_append _ _ _

/-- The append loop only ever appends at the end, keeping a sublist of
the incoming batch. -/
theorem appendLoop_append (rs : List HistoryRecord) (acc : List HistoryRecord)
    (ids : List String) :
    ∃ w, appendLoop rs acc ids = acc ++ w ∧ w.Sublist rs := by
  induction rs generalizing acc ids with
  | nil => exact ⟨[], by simp [appendLoop], List.nil_sublist _⟩
  | cons r rest ih =>
    cases hr : r.rid with
    | some s =>
      by_cases hskip : (s != "" && decide (s ∈ ids)) = true
      · obtain ⟨w, hw, hsub⟩ := ih acc ids
        refine ⟨w, ?_, hsub.cons r⟩
        have hstep : appendLoop (r :: rest) acc ids = appendLoop rest acc ids := by
          simp only [appendLoop, hr]
          rw [if_pos hskip]
        rw [hstep, hw]
      · obtain ⟨w, hw, hsub⟩ := ih (acc ++ [r]) (if s != "" then s :: ids else ids)
        refine ⟨r :: w, ?_, hsub.cons₂ r⟩
        have hstep : appendLoop (r :: rest) acc ids =
            appendLoop rest (acc ++ [r]) (if s != "" then s :: ids else ids) := by
          simp only [appendLoop, hr]
          rw [if_neg hskip]
        rw [hstep, hw]
        simp
    | none =>
      obtain ⟨w, hw, hsub⟩ := ih (acc ++ [r]) ids
      refine ⟨r :: w, ?_, hsub.cons₂ r⟩
      have hstep : appendLoop (r :: rest) acc ids = appendLoop rest (acc ++ [r]) ids := by
        simp only [appendLoop, hr]
      rw [hstep, hw]
      simp

/-- The append loop preserves distinctness of the stored truthy ids, as
long as the id set covers the ids already stored. -/
theorem appendLoop_nodup (rs : List HistoryRecord) (acc : List HistoryRecord)
    (ids : List String) (hnd : (existingIds acc).Nodup)
    (hcov : ∀ s ∈ existingIds acc, s ∈ ids) :
    (existingIds (appendLoop rs acc ids)).Nodup := by
  induction rs generalizing acc ids with
  | nil => simpa [appendLoop] using hnd
  | cons r rest ih =>
    cases hr : r.rid with
    | some s =>
      by_cases he : s = ""
      · have hstep : appendLoop (r :: rest) acc ids = appendLoop rest (acc ++ [r]) ids := by
          simp only [appendLoop, hr, he]
          simp
        rw [hstep]
        apply ih
        · rw [existingIds_append]
          simpa [existingIds, hr, he] using hnd
        · intro x hx
          rw [existingIds_append] at hx
          simp only [existingIds, List.filterMap, hr, he] at hx
          rcases List.mem_append.mp hx with h1 | h2
          · exact hcov x h1
          · simp [existingIds, hr, he] at h2
      · by_cases hmem : s ∈ ids
        · have hstep : appendLoop (r :: rest) acc ids = appendLoop rest acc ids := by
            simp only [appendLoop, hr]
            rw [if_pos (by simp [he, hmem])]
          rw [hstep]
          exact ih acc ids hnd hcov
        · have hstep : appendLoop (r :: rest) acc ids =
              appendLoop rest (acc ++ [r]) (s :: ids) := by
            simp only [appendLoop, hr]
            rw [if_neg (by simp [hmem]), if_pos (by simp [he])]
          rw [hstep]
          apply ih
          · rw [existingIds_append]
            have hone : existingIds [r] = [s] := by simp [existingIds, hr, he]
            rw [hone]
            simp only [List.nodup_append, List.nodup_cons]
            refine ⟨hnd, by simp, ?_⟩
            intro x hx hx1
            simp only [List.mem_singleton] at hx1
            subst hx1
            exact hmem (hcov x hx)
          · intro x hx
            rw [existingIds_append] at hx
            have hone : existingIds [r] = [s] := by simp [existingIds, hr, he]
            rw [hone] at hx
            rcases List.mem_append.mp hx with h1 | h2
            · exact List.mem_cons_of_mem _ (hcov x h1)
            · simp only [List.mem_singleton] at h2
              subst h2
              exact List.mem_cons_self _ _
    | none =>
      have hstep : appendLoop (r :: rest) acc ids = appendLoop rest (acc ++ [r]) ids := by
        simp only [appendLoop, hr]
      rw [hstep]
      apply ih
      · rw [existingIds_append]
        simpa [existingIds, hr] using hnd
      · intro x hx
        rw [existingIds_append] at hx
        rcases List.mem_append.mp hx with h1 | h2
        · exact hcov x h1
        · simp [existingIds, hr] at h2

/-- C8: `append_history` only ever appends — previously stored records
keep their content and relative order, and the appended suffix is a
subsequence of the batch — and across any sequence of `append_history`
calls whose batches carry truthy ids (as `run_update`'s
pair-plus-timestamp ids are), the stored history never holds two records
with the same id: every stored record has a truthy id and the stored ids
are pairwise distinct. -/
theorem append_history_dedup_invariant :
    (∀ (h rs : List HistoryRecord),
      ∃ w, append_history h rs = h ++ w ∧ w.Sublist rs) ∧
    (∀ batches : List (List HistoryRecord),
      (∀ b ∈ batches, ∀ r ∈ b, truthyId r.rid = true) →
      ((∀ r ∈ batches.foldl append_history [], truthyId r.rid = true) ∧
       (existingIds (batches.foldl append_history [])).Nodup)) := by
  have hpart1 : ∀ (h rs : List HistoryRecord),
      ∃ w, append_history h rs = h ++ w ∧ w.Sublist rs := by
    intro h rs
    cases rs with
    | nil => exact ⟨[], by simp [append_history], List.nil_sublist _⟩
    | cons r rest =>
      have hstep : append_history h (r :: rest) =
          appendLoop (r :: rest) h (existingIds h) := by
        simp [append_history]
      rw [hstep]
      exact appendLoop_append (r :: rest) h (existingIds h)
  refine ⟨hpart1, ?_⟩
  suffices hgen : ∀ (bs : List (List HistoryRecord)) (h : List HistoryRecord),
      (∀ b ∈ bs, ∀ r ∈ b, truthyId r.rid = true) →
      (∀ r ∈ h, truthyId r.rid = true) → (existingIds h).Nodup →
      ((∀ r ∈ bs.foldl append_history h, truthyId r.rid = true) ∧
       (existingIds (bs.foldl append_history h)).Nodup) by
    intro batches hb
    exact hgen batches [] hb (by simp) (by simp [existingIds])
  intro bs
  induction bs with
  | nil =>
    intro h _ hh hnd
    exact ⟨hh, hnd⟩
  | cons b rest ih =>
    intro h hb hh hnd
    simp only [List.foldl_cons]
    apply ih
    · intro b' hb' r hr
      exact hb b' (List.mem_cons_of_mem _ hb') r hr
    · obtain ⟨w, hw, hsub⟩ := hpart1 h b
      rw [hw]
      intro r hr
      rcases List.mem_append.mp hr with h1 | h2
      · exact hh r h1
      · exact hb b (List.mem_cons_self _ _) r (hsub.subset h2)
    · cases b with
      | nil => simpa [append_history] using hnd
      | cons rb restb =>
        have hstep : append_history h (rb :: restb) =
            appendLoop (rb :: restb) h (existingIds h) := by
          simp [append_history]
        rw [hstep]
        exact appendLoop_nodup _ h (existingIds h) hnd (fun s hs => hs)

/-- C8 witness: two overlapping cycles over the same pair/timestamp window
leave a history with truthy, pairwise-distinct ids. -/
theorem append_history_dedup_invariant_witness :
    (∀ r ∈ ([[⟨some (mkHistoryId "EUR" "USD" "T1"), "EUR", "USD", 1, .iso 1, "a"⟩],
             [⟨some (mkHistoryId "EUR" "USD" "T1"), "EUR", "USD", 1, .iso 1, "a"⟩,
              ⟨some (mkHistoryId "EUR" "USD" "T2"), "EUR", "USD", 2, .iso 2, "a"⟩]] :
        List (List HistoryRecord)).foldl append_history [],
      truthyId r.rid = true) ∧
    (existingIds
      (([[⟨some (mkHistoryId "EUR" "USD" "T1"), "EUR", "USD", 1, .iso 1, "a"⟩],
         [⟨some (mkHistoryId "EUR" "USD" "T1"), "EUR", "USD", 1, .iso 1, "a"⟩,
          ⟨some (mkHistoryId "EUR" "USD" "T2"), "EUR", "USD", 2, .iso 2, "a"⟩]] :
        List (List HistoryRecord)).foldl append_history [])).Nodup :=
  append_history_dedup_invariant.2 _ (by decide)

/-! ## Consumer read-path facts -/

/-- C6: when the cached entry for the requested pair exists but is stale,
`get_exchange_rate` triggers one synchronous refresh and re-reads: a
failed refresh fails the call with the stale-data error; a successful
refresh whose re-read entry is fresh returns the refreshed rate; a
successful refresh whose re-read entry is still stale fails with the
stale-data error; the call never returns a value that is stale (in
particular never the old cached one), and the stale-data error is
distinct from the rate-unavailable error. -/
theorem get_exchange_rate_stale_path (registry : String → Bool)
    (ttl now : Int) (cache : RatesMap) (r1 r2 : Bool × RatesMap)
    (fc tc : String) (q : ℚ) (u : TsStr)
    (hf : (pyUpper fc) ≠ "") (htc : (pyUpper tc) ≠ "")
    (hrf : registry (pyUpper fc) = true) (hrt : registry (pyUpper tc) = true)
    (hload : load_pair_rate cache (pyUpper fc) (pyUpper tc) = some (q, u))
    (hstale : is_stale u ttl now = true) :
    (r1.1 = false →
      get_exchange_rate registry ttl now cache r1 r2 fc tc = .error .staleData) ∧
    (∀ q2 u2, r1.1 = true →
      load_pair_rate r1.2 (pyUpper fc) (pyUpper tc) = some (q2, u2) →
      ((is_stale u2 ttl now = false →
         get_exchange_rate registry ttl now cache r1 r2 fc tc = .ok (q2, u2)) ∧
       (is_stale u2 ttl now = true →
         get_exchange_rate registry ttl now cache r1 r2 fc tc = .error .staleData))) ∧
    (∀ x, get_exchange_rate registry ttl now cache r1 r2 fc tc = .ok x →
      is_stale x.2 ttl now = false) ∧
    RateError.staleData ≠ RateError.rateUnavailable := by
  have hmain : get_exchange_rate registry ttl now cache r1 r2 fc tc =
      stale_phase ttl now r1 (pyUpper fc) (pyUpper tc) (q, u) := by
    simp [get_exchange_rate, hf, htc, hrf, hrt, hload]
  refine ⟨?_, ?_, ?_, by decide⟩
  · intro h1
    rw [hmain]
    simp [stale_phase, hstale, h1]
  · intro q2 u2 h1 hload2
    constructor
    · intro hfresh
      rw [hmain]
      simp [stale_phase, hstale, h1, hload2, hfresh]
    · intro hstale2
      rw [hmain]
      simp [stale_phase, hstale, h1, hload2, hstale2]
  · intro x hx
    rw [hmain] at hx
    simp only [stale_phase, hstale, if_true] at hx
    by_cases h1 : r1.1 = true
    · rw [if_pos h1] at hx
      rcases hl2 : load_pair_rate r1.2 ((pyUpper fc)) ((pyUpper tc)) with _ | pd2 <;>
        rw [hl2] at hx
      · simp at hx
      · by_cases hst2 : is_stale pd2.2 ttl now = true
        · simp [hst2] at hx
        · have hfb : is_stale pd2.2 ttl now = false := by
            cases hb : is_stale pd2.2 ttl now with
            | true => exact absurd hb hst2
            | false => rfl
          simp [hfb] at hx
          subst hx
          exact hfb
    · rw [if_neg h1] at hx
      simp at hx

/-- C6 witness: a stale cached EUR→USD entry, a refresh that succeeds and
leaves a fresh entry: the call returns the refreshed rate. -/
theorem get_exchange_rate_stale_path_witness :
    get_exchange_rate (fun c => c == "EUR" || c == "USD") 3600 10000
      (fun _ => some (.entry (some (.num 1)) (.iso 0) (some "Seed")))
      (true, fun _ => some (.entry (some (.num 2)) (.iso 10000) (some "CoinGecko")))
      (false, fun _ => none) "EUR" "USD" = .ok (2, .iso 10000) :=
  (((get_exchange_rate_stale_path (fun c => c == "EUR" || c == "USD") 3600 10000
      (fun _ => some (.entry (some (.num 1)) (.iso 0) (some "Seed")))
      (true, fun _ => some (.entry (some (.num 2)) (.iso 10000) (some "CoinGecko")))
      (false, fun _ => none) "EUR" "USD" 1 (.iso 0)
      (by decide) (by decide) (by decide) (by decide) (by decide) (by decide)).2.1
      2 (.iso 10000) rfl (by decide)).1) (by decide)

/-- C10 counterexample: a reverse-pair entry whose `"rate"` is the
unparsable (but truthy) string `"abc"` makes `Database.get_rate` raise
`TypeError` at `1.0 / base_rate`, rather than treating the pair as
unavailable. -/
theorem db_get_rate_unparsable_inverse_cex :
    db_get_rate (fun k => if k = "USD_EUR" then
        some (.entry (some (.str "abc" none)) .missing none) else none)
      "EUR" "USD" = .error .typeError ∧
    (Except.error PyError.typeError ≠
      (Except.ok none : Except PyError (Option PyVal))) :=
  ⟨by decide, by decide⟩

/-- C10 (amended): no rate lookup ever divides by zero —
`Database.get_rate` can never raise `ZeroDivisionError`, a falsy (zero)
reverse rate makes it return "no rate" without dividing, and
`_load_pair_rate` treats a zero or unparsable stored inverse rate as
unavailable; but a truthy non-numeric reverse rate makes
`Database.get_rate` raise `TypeError` instead of returning "no rate". -/
theorem rate_inversion_guarded :
    (∀ (pairs : RatesMap) (f t : String),
      db_get_rate pairs f t ≠ .error .zeroDivision) ∧
    (∀ (pairs : RatesMap) (f t : String) (rate : Option PyVal) (u : TsStr)
        (src : Option String),
      pairs (f ++ "_" ++ t) = none →
      pairs (t ++ "_" ++ f) = some (.entry rate u src) →
      (pyFloat rate = none ∨ pyFloat rate = some 0) →
      load_pair_rate pairs f t = none) ∧
    (∀ (pairs : RatesMap) (f t : String) (u : TsStr) (src : Option String),
      pairs ((pyUpper f) ++ "_" ++ (pyUpper t)) = none →
      pairs ((pyUpper t) ++ "_" ++ (pyUpper f)) = some (.entry (some (.num 0)) u src) →
      db_get_rate pairs f t = .ok none) := by
  refine ⟨?_, ?_, ?_⟩
  · intro pairs f t h
    by_cases hft : (pyUpper f) = (pyUpper t)
    · simp [db_get_rate, hft] at h
    · rcases hd : pairs ((pyUpper f) ++ "_" ++ (pyUpper t)) with _ | cv
      · rcases hr : pairs ((pyUpper t) ++ "_" ++ (pyUpper f)) with _ | cv2
        · simp [db_get_rate, hft, hd, hr] at h
        · cases cv2 with
          | notDict => simp [db_get_rate, hft, hd, hr] at h
          | entry rate u src =>
            cases rate with
            | none => simp [db_get_rate, hft, hd, hr] at h
            | some v =>
              cases v with
              | num q =>
                by_cases hq : q = 0
                · simp [db_get_rate, hft, hd, hr, pyTruthy, hq] at h
                · simp [db_get_rate, hft, hd, hr, pyTruthy, pyInvert, Except.map, hq] at h
              | str s p =>
                by_cases hs : s = ""
                · simp [db_get_rate, hft, hd, hr, pyTruthy, hs] at h
                · simp [db_get_rate, hft, hd, hr, pyTruthy, pyInvert, Except.map, hs] at h
              | other b =>
                cases b <;> simp [db_get_rate, hft, hd, hr, pyTruthy, pyInvert, Except.map] at h
      · cases cv with
        | entry rate u src => simp [db_get_rate, hft, hd] at h
        | notDict =>
          rcases hr : pairs ((pyUpper t) ++ "_" ++ (pyUpper f)) with _ | cv2
          · simp [db_get_rate, hft, hd, hr] at h
          · cases cv2 with
            | notDict => simp [db_get_rate, hft, hd, hr] at h
            | entry rate u src =>
              cases rate with
              | none => simp [db_get_rate, hft, hd, hr] at h
              | some v =>
                cases v with
                | num q =>
                  by_cases hq : q = 0
                  · simp [db_get_rate, hft, hd, hr, pyTruthy, hq] at h
                  · simp [db_get_rate, hft, hd, hr, pyTruthy, pyInvert, Except.map, hq] at h
                | str s p =>
                  by_cases hs : s = ""
                  · simp [db_get_rate, hft, hd, hr, pyTruthy, hs] at h
                  · simp [db_get_rate, hft, hd, hr, pyTruthy, pyInvert, Except.map, hs] at h
                | other b =>
                  cases b <;> simp [db_get_rate, hft, hd, hr, pyTruthy, pyInvert, Except.map] at h
  · intro pairs f t rate u src hd hr hz
    rcases hz with hz | hz <;> simp [load_pair_rate, hd, hr, hz]
  · intro pairs f t u src hd hr
    by_cases hft : (pyUpper f) = (pyUpper t)
    · exfalso
      rw [hft] at hd hr
      exact Option.noConfusion (hd.symm.trans hr)
    · simp [db_get_rate, hft, hd, hr, pyTruthy]

/-- C10 witness: a stored inverse rate of zero makes `_load_pair_rate`
report the pair unavailable rather than divide. -/
theorem rate_inversion_guarded_witness :
    load_pair_rate (fun k => if k = "USD_EUR" then
        some (.entry (some (.num 0)) (.iso 0) (some "Seed")) else none)
      "EUR" "USD" = none :=
  rate_inversion_guarded.2.1 _ "EUR" "USD" (some (.num 0)) (.iso 0) (some "Seed")
    rfl rfl (Or.inr rfl)

end ValutaTrade
